import Mathlib

/-!
Shallow embedding of the OCR pipeline of the `invoice_reconciliation` app
(`app/core/ocr/data_parser.py`, `text_extractor.py`, `ocr_helpers.py`,
`image_processor.py` and `app/services/ocr_service.py`), together with
theorems settling the specification claims about it.

Strings are modelled by Lean `String`; real-valued averages (Python floats
obtained as quotients of integer sums by counts) are modelled by exact
fractions `Frac` with positive denominators, compared by cross
multiplication.  Python's stable `sorted` is modelled by `List.insertionSort`
(stable, and extensionally equal to any stable sort by the given key).
-/

/-! ## Python string helpers -/

/-- Whitespace characters recognised by Python's `str.strip` / regex `\s`
(ASCII range). -/
def isPySpace (c : Char) : Bool :=
  c = ' ' || c = '\t' || c = '\n' || c = '\r' || c = '\x0b' || c = '\x0c'

/-- Model of Python `str.strip()`: drop whitespace from both ends. -/
def pyStrip (s : String) : String :=
  String.mk (((s.toList.dropWhile isPySpace).reverse.dropWhile isPySpace).reverse)

/-- Model of Python `str.lower()` (ASCII case folding). -/
def pyLower (s : String) : String :=
  String.mk (s.toList.map Char.toLower)

/-- Model of Python `text.split(':', 1)` when `':' in text`: the part before
the first colon and the part after it. -/
def splitFirstColon (s : String) : String × String :=
  let p := s.toList.span (fun c => c ≠ ':')
  (String.mk p.1, String.mk (p.2.drop 1))

/-- Substring test on character lists: does `needle` occur contiguously in
`hay`?  This models Python's `needle in hay` for strings. -/
def listHasSub (needle : List Char) : List Char → Bool
  | [] => needle.isEmpty
  | c :: t => needle.isPrefixOf (c :: t) || listHasSub needle t

/-- Model of Python `needle in hay` for strings. -/
def strHasSub (hay needle : String) : Bool :=
  listHasSub needle.toList hay.toList

/-! ## Regular expressions

Only the combinators used by the twelve key patterns of
`data_parser.extract_kv_pairs_from_lines` are needed: literals, alternation,
concatenation, `\s*` and an optional group.  Matching is case-insensitive,
modelling the `re.IGNORECASE` flag. -/

/-- Regular expressions over the fragment used by the key patterns. -/
inductive RE where
  | lit : String → RE
  | alt : RE → RE → RE
  | cat : RE → RE → RE
  | ws : RE
  | opt : RE → RE

/-- Case-insensitive literal matching: if `p` is a prefix of `s` up to ASCII
case, return the rest of `s`. -/
def litDrop : List Char → List Char → Option (List Char)
  | [], s => some s
  | _ :: _, [] => none
  | p :: ps, c :: cs => if p.toLower = c.toLower then litDrop ps cs else none

/-- Suffixes of `s` reachable by consuming zero or more whitespace
characters (the language of `\s*`). -/
def wsSuffixes : List Char → List (List Char)
  | [] => [[]]
  | c :: t => (c :: t) :: (if isPySpace c then wsSuffixes t else [])

/-- All suffixes of `s` left over after matching `r` at the start of `s`. -/
def matchEnds : RE → List Char → List (List Char)
  | .lit p, s =>
      match litDrop p.toList s with
      | some r => [r]
      | none => []
  | .alt r1 r2, s => matchEnds r1 s ++ matchEnds r2 s
  | .cat r1 r2, s => (matchEnds r1 s).flatMap (fun s2 => matchEnds r2 s2)
  | .ws, s => wsSuffixes s
  | .opt r, s => s :: matchEnds r s

/-- Model of `re.search` restricted to the fragment above: does `r` match at
some position of `s`? -/
def reSearch (r : RE) : List Char → Bool
  | [] => !(matchEnds r []).isEmpty
  | c :: t => !(matchEnds r (c :: t)).isEmpty || reSearch r t

/-- Case-insensitive search of pattern `r` in string `s`. -/
def searchPattern (r : RE) (s : String) : Bool :=
  reSearch r s.toList

/-! ## Tokens (entries of `structured_data`) -/

/-- Bounding box of a recognised token (`bbox` in the Python dicts). -/
structure BBox where
  left : Int
  top : Int
  width : Int
  height : Int
deriving DecidableEq, Repr

/-- One recognised token, as produced by
`extract_text_with_confidence_and_positioning_advanced`. -/
structure Token where
  text : String
  confidence : Int
  bbox : BBox
deriving DecidableEq, Repr

/-! ## Exact fractions (model of real-valued averages) -/

/-- Exact fraction `num / den`; all fractions built below have a positive
denominator, and comparisons are by cross multiplication. -/
structure Frac where
  num : Int
  den : Int
deriving DecidableEq, Repr

/-- Strict order on fractions with positive denominators. -/
def fracLt (x y : Frac) : Bool :=
  x.num * y.den < y.num * x.den

/-- Equality test on fractions with positive denominators. -/
def fracEqB (x y : Frac) : Bool :=
  x.num * y.den = y.num * x.den

/-! ## `data_parser.group_words_into_lines` -/

/-- Tolerance (in pixels) for two tokens to lie on one line
(`line_tolerance = 10` in the source). -/
def line_tolerance : Nat := 10

/-- Stable sort of tokens by ascending `top` coordinate
(`sorted(words_data, key=lambda x: x['bbox']['top'])`). -/
def sortByTop (ws : List Token) : List Token :=
  List.insertionSort (fun a b => a.bbox.top ≤ b.bbox.top) ws

/-- Stable sort of a line's tokens by ascending `left` coordinate
(`current_line.sort(key=lambda x: x['bbox']['left'])`). -/
def sortByLeft (line : List Token) : List Token :=
  List.insertionSort (fun a b => a.bbox.left ≤ b.bbox.left) line

/-- Scan of the top-sorted tokens: `last` is `current_line[-1]`, `curRev`
the earlier members of the current line in reverse.  A token joins the
current line when its `top` is within `line_tolerance` of `last`'s `top`,
otherwise the current line is closed and a new one starts. -/
def groupScan : Token → List Token → List Token → List (List Token)
  | last, curRev, [] => [(last :: curRev).reverse]
  | last, curRev, w :: rest =>
      if (w.bbox.top - last.bbox.top).natAbs ≤ line_tolerance then
        groupScan w (last :: curRev) rest
      else
        (last :: curRev).reverse :: groupScan w [] rest

/-- Lines produced by the scan, before the per-line sort by `left`. -/
def groupChains (words_data : List Token) : List (List Token) :=
  match sortByTop words_data with
  | [] => []
  | w :: rest => groupScan w [] rest

/-- Model of `group_words_into_lines`: sort by `top`, scan into lines, sort
each line by `left`. -/
def group_words_into_lines (words_data : List Token) : List (List Token) :=
  (groupChains words_data).map sortByLeft

/-- The `top` coordinate of a line's first token (`0` for an empty line;
lines produced by the grouping are never empty). -/
def lineFirstTop (line : List Token) : Int :=
  match line with
  | [] => 0
  | t :: _ => t.bbox.top

/-- Adjacent tokens of the scan are vertically close: their tops differ by
at most `line_tolerance`. -/
def topClose (a b : Token) : Prop :=
  (b.bbox.top - a.bbox.top).natAbs ≤ line_tolerance

/-! ## `data_parser.extract_kv_pairs_from_lines` -/

/-- The twelve key patterns of the source, in order. -/
def key_patterns : List RE :=
  [ RE.cat (RE.alt (RE.lit "invoice") (RE.lit "bill"))
      (RE.cat RE.ws (RE.alt (RE.lit "no") (RE.alt (RE.lit "number") (RE.lit "#")))),
    RE.alt (RE.lit "date") (RE.lit "dated"),
    RE.cat (RE.alt (RE.lit "gst") (RE.lit "gstin"))
      (RE.cat RE.ws (RE.opt (RE.alt (RE.lit "no") (RE.lit "number")))),
    RE.alt (RE.lit "pan") (RE.cat (RE.lit "pan") (RE.cat RE.ws (RE.lit "no"))),
    RE.cat (RE.alt (RE.lit "vendor") (RE.alt (RE.lit "supplier") (RE.lit "company")))
      (RE.cat RE.ws (RE.opt (RE.lit "name"))),
    RE.alt (RE.lit "total")
      (RE.alt (RE.cat (RE.lit "grand") (RE.cat RE.ws (RE.lit "total")))
        (RE.cat (RE.lit "final") (RE.cat RE.ws (RE.lit "amount")))),
    RE.alt (RE.lit "quantity") (RE.lit "qty"),
    RE.alt (RE.lit "rate") (RE.alt (RE.lit "price") (RE.lit "amount")),
    RE.alt (RE.lit "hsn") (RE.lit "sac"),
    RE.alt (RE.lit "cgst") (RE.alt (RE.lit "sgst") (RE.lit "igst")),
    RE.cat (RE.alt (RE.lit "taxable") (RE.lit "tax"))
      (RE.cat RE.ws (RE.alt (RE.lit "amount") (RE.lit "value"))),
    RE.alt (RE.lit "description") (RE.alt (RE.lit "particulars") (RE.lit "item")) ]

/-- The first key pattern matching `key`, if any (the `for pattern ... break`
loop of the source consults patterns in order). -/
def firstMatchingPattern (key : String) : Option RE :=
  key_patterns.find? (fun p => searchPattern p key)

/-- Does any of the twelve key patterns match `key`? -/
def matchesAnyPattern (key : String) : Bool :=
  key_patterns.any (fun p => searchPattern p key)

/-- Extracted key-value store; Python `dict` with string keys, in insertion
order. -/
abbrev KVDict := List (String × String)

/-- Model of Python `d[k] = v`: replace the binding of an existing key in
place, else append the new binding. -/
def dictSet (m : KVDict) (k v : String) : KVDict :=
  if m.any (fun p => p.1 == k) then
    m.map (fun p => bif p.1 == k then (k, v) else p)
  else
    m ++ [(k, v)]

/-- Space-joined text of a line (`' '.join([word['text'] for word in line])`). -/
def joinedText (line : List Token) : String :=
  String.intercalate " " (line.map Token.text)

/-- The key of a colon line: the part before the first colon, stripped and
lowercased. -/
def colonKey (line : List Token) : String :=
  pyLower (pyStrip (splitFirstColon (joinedText line)).1)

/-- The value of a colon line: the part after the first colon, stripped. -/
def colonValue (line : List Token) : String :=
  pyStrip (splitFirstColon (joinedText line)).2

/-- The adjacent label-value loop of the colon-free branch: for each adjacent
pair, when the lowercased first text matches a key pattern, record the pair
if the horizontal gap `next.left - (key.left + key.width)` is below 100. -/
def adjacentPairsLoop (m : KVDict) : List Token → KVDict
  | a :: b :: rest =>
      let key_word := pyLower a.text
      let m2 :=
        match firstMatchingPattern key_word with
        | some _ =>
            let distance := b.bbox.left - (a.bbox.left + a.bbox.width)
            if distance < 100 then dictSet m key_word b.text else m
        | none => m
      adjacentPairsLoop m2 (b :: rest)
  | _ => m

/-- Processing of one line by `extract_kv_pairs_from_lines`: lines with
fewer than 2 tokens are skipped; a line whose joined text holds a colon is
split at the first colon, and the (lowercased, stripped) key is accepted
when a key pattern matches it or when the key and value lengths are
reasonable; otherwise the adjacent-pair loop runs. -/
def kvLineStep (m : KVDict) (line : List Token) : KVDict :=
  if line.length < 2 then m
  else
    let line_text := joinedText line
    if line_text.toList.contains ':' then
      let parts := splitFirstColon line_text
      let key := pyLower (pyStrip parts.1)
      let value := pyStrip parts.2
      match firstMatchingPattern key with
      | some _ => dictSet m key value
      | none =>
          if key.length > 2 && key.length < 50 && value.length > 0 && value.length < 200 then
            dictSet m key value
          else m
    else
      adjacentPairsLoop m line

/-- Model of `extract_kv_pairs_from_lines`. -/
def extract_kv_pairs_from_lines (lines : List (List Token)) : KVDict :=
  lines.foldl kvLineStep []

/-- Declarative form of one adjacent-pair step, following the claim: when
the lowercased key text matches some key pattern and the horizontal gap
`next.left - (key.left + key.width)` is strictly below 100 (with no lower
bound), the pair is recorded. -/
def adjacentRecord (m : KVDict) (a b : Token) : KVDict :=
  if matchesAnyPattern (pyLower a.text)
      && decide (b.bbox.left - (a.bbox.left + a.bbox.width) < 100) then
    dictSet m (pyLower a.text) b.text
  else m

/-! ## `data_parser.extract_table_structure_advanced` -/

/-- Keywords marking a header row. -/
def header_keywords : List String :=
  ["description", "qty", "rate", "amount", "hsn", "total", "particulars", "item", "quantity"]

/-- Does the lowercased space-joined text of the row contain a header
keyword? -/
def isHeaderRow (line_text : List String) : Bool :=
  header_keywords.any (fun kw => strHasSub (pyLower (String.intercalate " " line_text)) kw)

/-- One step of the table loop: the accumulator is `(table_rows, header_row)`. -/
def tableRowStep (acc : List (List String) × Option (List String)) (line : List Token) :
    List (List String) × Option (List String) :=
  if line.length ≥ 3 then
    let line_text := line.map Token.text
    if isHeaderRow line_text then (acc.1, some line_text)
    else (acc.1 ++ [line_text], acc.2)
  else acc

/-- Model of `extract_table_structure_advanced`: collect rows of at least 3
tokens that are not header rows; return the first 50 of them when more than
one was collected, else the empty table. -/
def extract_table_structure_advanced (lines : List (List Token)) : List (List String) :=
  if lines.isEmpty then []
  else
    let table_rows := (lines.foldl tableRowStep ([], none)).1
    if table_rows.length > 1 then table_rows.take 50 else []

/-- A line that qualifies as a table row: at least 3 tokens and no header
keyword in its joined text. -/
def qualifiesAsRow (line : List Token) : Bool :=
  line.length ≥ 3 && !isHeaderRow (line.map Token.text)

/-! ## `text_extractor.extract_plain_text_advanced` -/

/-- Outcome of running one OCR configuration: `ok = false` models a timeout
or exception (the `continue` branches); `conf` and `texts` are the `conf`
and `text` columns of the recognition data. -/
structure ProfileOutcome where
  ok : Bool
  conf : List Int
  texts : List String
deriving DecidableEq, Repr

/-- The text rendered from a profile's data:
`'\n'.join([t for t in data['text'] if t.strip()])`. -/
def renderBestText (texts : List String) : String :=
  String.intercalate "\n" (texts.filter (fun t => pyStrip t != ""))

/-- The positive confidences of a profile
(`[int(conf) for conf in data['conf'] if int(conf) > 0]`). -/
def positiveConfs (p : ProfileOutcome) : List Int :=
  p.conf.filter (fun c => c > 0)

/-- Mean confidence of a profile over its positive confidences, as an exact
fraction. -/
def avgConf (p : ProfileOutcome) : Frac :=
  ⟨(positiveConfs p).sum, ((positiveConfs p).length : Int)⟩

/-- A profile that was neither skipped nor confidence-free: its result is
considered by the selection loop. -/
def validProfile (p : ProfileOutcome) : Bool :=
  p.ok && !(positiveConfs p).isEmpty

/-- One iteration of the configuration loop: the accumulator is
`(best_text, max_confidence)`; a profile's result becomes the new best
exactly when its mean confidence strictly exceeds the current maximum. -/
def profileStep (acc : String × Frac) (p : ProfileOutcome) : String × Frac :=
  if p.ok then
    if (positiveConfs p).isEmpty then acc
    else if fracLt acc.2 (avgConf p) then (renderBestText p.texts, avgConf p)
    else acc
  else acc

/-- The configuration loop, started from `best_text = ""` and
`max_confidence = 0`. -/
def selectLoop (ps : List ProfileOutcome) : String × Frac :=
  ps.foldl profileStep ("", ⟨0, 1⟩)

/-- Outcome of the basic-OCR fallback pass (`run_with_timeout(basic_ocr_task,
timeout_seconds=30)`): a returned string, a timeout, or a raised exception. -/
inductive BasicOutcome where
  | ok : String → BasicOutcome
  | timedOut : BasicOutcome
  | raised : BasicOutcome
deriving DecidableEq, Repr

/-- Budget (in seconds) of the fallback pass in the source. -/
def basic_ocr_timeout_seconds : Nat := 30

/-- The fallback stage: when the selected best text strips to empty, one
basic OCR pass decides the result — its text if non-empty, a timeout
sentinel, or a failure sentinel. -/
def fallbackText (best : String) (fb : BasicOutcome) : String :=
  if pyStrip best == "" then
    match fb with
    | .ok s => if s ≠ "" then s else best
    | .timedOut => "OCR processing timed out - unable to extract text"
    | .raised => "OCR processing failed"
  else best

/-- Model of `extract_plain_text_advanced`: run the configuration loop, fall
back to basic OCR when no usable text was selected, and strip the result. -/
def extract_plain_text_advanced (ps : List ProfileOutcome) (fb : BasicOutcome) : String :=
  pyStrip (fallbackText (selectLoop ps).1 fb)

/-! ## `ocr_helpers.calculate_average_confidence` and result metadata -/

/-- Round an exact fraction with positive denominator to two decimals, ties
to even (Python's `round(x, 2)`). -/
def round2 (x : Frac) : Frac :=
  let n := x.num * 100
  let f := Int.ediv n x.den
  let r := Int.emod n x.den
  let i :=
    if 2 * r < x.den then f
    else if 2 * r > x.den then f + 1
    else if Int.emod f 2 = 0 then f else f + 1
  ⟨i, 100⟩

/-- Model of `calculate_average_confidence`: `0.0` on empty data, else the
mean token confidence rounded to two decimals. -/
def calculate_average_confidence (structured_data : List Token) : Frac :=
  if structured_data.isEmpty then ⟨0, 1⟩
  else round2 ⟨(structured_data.map Token.confidence).sum, (structured_data.length : Int)⟩

/-- The `metadata` dictionary built by `extract_all_data_advanced`. -/
structure ExtractionMetadata where
  total_text_elements : Nat
  average_confidence : Frac
  tables_found : Nat
  processing_method : String
deriving DecidableEq, Repr

/-- Model of the metadata of `extract_all_data_advanced`, as a function of
the page's structured data. -/
def extract_all_data_metadata (structured_data : List Token) : ExtractionMetadata :=
  let lines := group_words_into_lines structured_data
  let tables := extract_table_structure_advanced lines
  ⟨structured_data.length, calculate_average_confidence structured_data,
    tables.length, "advanced_ocr_with_preprocessing"⟩

/-- The `processing_info` sub-dictionary of the PDF result metadata. -/
structure PdfProcessingInfo where
  resolution_multiplier : Frac
  pages_processed : Nat
  all_page_images_stored : Nat
deriving DecidableEq, Repr

/-- The `metadata` dictionary of the PDF result built by
`OCRService._process_pdf_from_url`; every page yields one entry of
`all_pages_data` and of `all_page_images`, so all counts equal the page
count. -/
structure PdfMetadata where
  total_pages : Nat
  processing_info : PdfProcessingInfo
deriving DecidableEq, Repr

/-- Model of the PDF result metadata as built in the source; it depends only
on the number of pages. -/
def pdf_result_metadata (numPages : Nat) : PdfMetadata :=
  ⟨numPages, ⟨⟨2, 1⟩, numPages, numPages⟩⟩

/-- The numeric values occurring in the PDF result metadata. -/
def pdfMetadataValues (m : PdfMetadata) : List Frac :=
  [⟨(m.total_pages : Int), 1⟩, m.processing_info.resolution_multiplier,
    ⟨(m.processing_info.pages_processed : Int), 1⟩,
    ⟨(m.processing_info.all_page_images_stored : Int), 1⟩]

/-! ## `image_processor.preprocess_image_advanced` -/

/-- Abstract raster image: a mode string (PIL `Image.mode`) and an identity
tag distinguishing distinct images. -/
structure Raster where
  mode : String
  tag : Nat
deriving DecidableEq, Repr

/-- The fallible steps of the enhancement chain; `none` models a raised
exception. -/
structure PreprocessOps where
  convert_rgb : Raster → Option Raster
  to_cv : Raster → Option Raster
  to_gray : Raster → Option Raster
  clahe : Raster → Option Raster
  bilateral : Raster → Option Raster
  morph_close : Raster → Option Raster
  morph_open : Raster → Option Raster
  adaptive_threshold : Raster → Option Raster
  from_array : Raster → Option Raster
  median_filter : Raster → Option Raster
  sharpen : Raster → Option Raster

/-- The RGB normalisation step: `pil_image.convert('RGB')` runs only when
the mode is not already `RGB`. -/
def rgbNormalize (ops : PreprocessOps) (img : Raster) : Option Raster :=
  if img.mode ≠ "RGB" then ops.convert_rgb img else some img

/-- The enhancement chain after RGB normalisation, in source order; the
first failing step aborts the chain. -/
def preprocessChain (ops : PreprocessOps) (img : Raster) : Option Raster :=
  ops.to_cv img >>= ops.to_gray >>= ops.clahe >>= ops.bilateral >>=
    ops.morph_close >>= ops.morph_open >>= ops.adaptive_threshold >>=
    ops.from_array >>= ops.median_filter >>= ops.sharpen

/-- Model of `preprocess_image_advanced`: the whole body runs under one
`try`; the `except` handler returns the current binding of `pil_image`,
which the RGB conversion may have rebound. -/
def preprocess_image_advanced (ops : PreprocessOps) (pil_image : Raster) : Raster :=
  match rgbNormalize ops pil_image with
  | none => pil_image
  | some img1 =>
      match preprocessChain ops img1 with
      | some out => out
      | none => img1

/-! ## `OCRService._process_pdf_from_url`: key-value merge across pages -/

/-- Model of Python `m.update(other)`: assign every binding of `other` into
`m`, in order. -/
def dict_update (m other : KVDict) : KVDict :=
  other.foldl (fun acc kv => dictSet acc kv.1 kv.2) m

/-- The document-level key-value map: per-page maps merged in increasing
page order by sequential `update`. -/
def merge_kv_pages (pages : List KVDict) : KVDict :=
  pages.foldl dict_update []

/-! ## Lemmas about line grouping -/

/-- The scan loses and duplicates no token: flattening its output recovers
the current line followed by the unscanned rest. -/
theorem groupScan_flatten : ∀ (rest : List Token) (last : Token) (curRev : List Token),
    (groupScan last curRev rest).flatten = (last :: curRev).reverse ++ rest := by
  intro rest
  induction rest with
  | nil => intro last curRev; simp [groupScan]
  | cons w rest ih =>
      intro last curRev
      by_cases h : (w.bbox.top - last.bbox.top).natAbs ≤ line_tolerance
      · simp only [groupScan, if_pos h, ih]
        simp
      · simp only [groupScan, if_neg h, List.flatten_cons, ih]
        simp

/-- Flattening the scan's chains recovers the top-sorted input. -/
theorem groupChains_flatten (ws : List Token) :
    (groupChains ws).flatten = sortByTop ws := by
  unfold groupChains
  cases h : sortByTop ws with
  | nil => simp
  | cons w rest => simp [groupScan_flatten]

/-- Sorting each chain by `left` preserves the multiset of all tokens. -/
theorem flatten_map_sortByLeft_perm (ls : List (List Token)) :
    ((ls.map sortByLeft).flatten).Perm ls.flatten := by
  induction ls with
  | nil => simp
  | cons c t ih =>
      simpa using (List.perm_insertionSort
        (fun a b : Token => a.bbox.left ≤ b.bbox.left) c).append ih

/-- A line sorted by `left` has non-decreasing `left` coordinates. -/
theorem sortByLeft_pairwise (l : List Token) :
    List.Pairwise (fun a b : Token => a.bbox.left ≤ b.bbox.left) (sortByLeft l) := by
  haveI : IsTotal Token (fun a b : Token => a.bbox.left ≤ b.bbox.left) :=
    ⟨fun a b => Int.le_total _ _⟩
  haveI : IsTrans Token (fun a b : Token => a.bbox.left ≤ b.bbox.left) :=
    ⟨fun _ _ _ h1 h2 => le_trans h1 h2⟩
  exact List.sorted_insertionSort _ l

/-- Vertical closeness is symmetric. -/
theorem topClose_symm (a b : Token) : topClose a b ↔ topClose b a := by
  unfold topClose
  omega

/-- Every chain the scan emits is a `topClose`-chain, provided the current
line (kept in reverse) is one. -/
theorem groupScan_chain : ∀ (rest : List Token) (last : Token) (curRev : List Token),
    List.Chain' (flip topClose) (last :: curRev) →
    ∀ c ∈ groupScan last curRev rest, List.Chain' topClose c := by
  intro rest
  induction rest with
  | nil =>
      intro last curRev hinv c hc
      simp only [groupScan, List.mem_singleton] at hc
      subst hc
      exact List.chain'_reverse.2 hinv
  | cons w rest ih =>
      intro last curRev hinv c hc
      by_cases h : (w.bbox.top - last.bbox.top).natAbs ≤ line_tolerance
      · simp only [groupScan, if_pos h] at hc
        refine ih w (last :: curRev) ?_ c hc
        exact List.chain'_cons.2 ⟨h, hinv⟩
      · simp only [groupScan, if_neg h, List.mem_cons] at hc
        rcases hc with hc1 | hc2
        · subst hc1
          exact List.chain'_reverse.2 hinv
        · exact ih w [] (List.chain'_singleton w) c hc2

/-- C4: for every input token list, the concatenation of all lines produced
by line grouping is a permutation of the input tokens (no token lost or
duplicated), and within each produced line the tokens' left coordinates are
non-decreasing. -/
theorem c4_grouping_permutation_and_left_sorted (ws : List Token) :
    ((group_words_into_lines ws).flatten).Perm ws ∧
    ∀ line ∈ group_words_into_lines ws,
      List.Pairwise (fun a b : Token => a.bbox.left ≤ b.bbox.left) line := by
  constructor
  · have h1 := flatten_map_sortByLeft_perm (groupChains ws)
    rw [groupChains_flatten ws] at h1
    exact (h1.trans (List.perm_insertionSort _ ws))
  · intro line hline
    rcases List.mem_map.1 hline with ⟨c, _, rfl⟩
    exact sortByLeft_pairwise c

/-- C4 witness: the theorem applied to a concrete three-token input. -/
theorem c4_witness :
    ((group_words_into_lines
        [⟨"a", 50, ⟨7, 0, 5, 5⟩⟩, ⟨"b", 60, ⟨0, 4, 5, 5⟩⟩, ⟨"c", 70, ⟨3, 30, 5, 5⟩⟩]).flatten).Perm
      [⟨"a", 50, ⟨7, 0, 5, 5⟩⟩, ⟨"b", 60, ⟨0, 4, 5, 5⟩⟩, ⟨"c", 70, ⟨3, 30, 5, 5⟩⟩] ∧
    List.Pairwise (fun a b : Token => a.bbox.left ≤ b.bbox.left)
      [⟨"b", 60, ⟨0, 4, 5, 5⟩⟩, ⟨"a", 50, ⟨7, 0, 5, 5⟩⟩] := by
  refine ⟨(c4_grouping_permutation_and_left_sorted _).1, ?_⟩
  exact (c4_grouping_permutation_and_left_sorted
    [⟨"a", 50, ⟨7, 0, 5, 5⟩⟩, ⟨"b", 60, ⟨0, 4, 5, 5⟩⟩, ⟨"c", 70, ⟨3, 30, 5, 5⟩⟩]).2
    [⟨"b", 60, ⟨0, 4, 5, 5⟩⟩, ⟨"a", 50, ⟨7, 0, 5, 5⟩⟩] (by decide)

/-- C2 counterexample: three tokens whose tops drift by 10 each land in one
line, whose last token is 20 units from the line's first token — the claimed
at-most-10 bound to the line's first token fails. -/
theorem c2_counterexample :
    ¬ (∀ line ∈ group_words_into_lines
          [⟨"a", 50, ⟨0, 0, 5, 5⟩⟩, ⟨"b", 50, ⟨5, 10, 5, 5⟩⟩, ⟨"c", 50, ⟨9, 20, 5, 5⟩⟩],
        ∀ t ∈ line, (t.bbox.top - lineFirstTop line).natAbs ≤ 10) := by decide

/-- C2 (amended): during the sequential scan a token joins the current line
exactly when its top differs from the line's LAST token's top by at most 10;
consequently, in every chain the scan produces, consecutive tokens' tops
differ by at most 10 (the produced line is that chain sorted by left). -/
theorem c2_amended_scan_chain (ws : List Token) :
    ∀ c ∈ groupChains ws, List.Chain' topClose c := by
  unfold groupChains
  cases h : sortByTop ws with
  | nil => intro c hc; simp at hc
  | cons w rest =>
      intro c hc
      exact groupScan_chain rest w [] (List.chain'_singleton w) c hc

/-- C2 witness: the amended theorem applied to the drifting three-token
input; the single produced chain is a `topClose`-chain. -/
theorem c2_amended_witness :
    [⟨"a", 50, ⟨0, 0, 5, 5⟩⟩, ⟨"b", 50, ⟨5, 10, 5, 5⟩⟩, ⟨"c", 50, ⟨9, 20, 5, 5⟩⟩] ∈
      groupChains [⟨"a", 50, ⟨0, 0, 5, 5⟩⟩, ⟨"b", 50, ⟨5, 10, 5, 5⟩⟩, ⟨"c", 50, ⟨9, 20, 5, 5⟩⟩] ∧
    List.Chain' topClose
      [⟨"a", 50, ⟨0, 0, 5, 5⟩⟩, ⟨"b", 50, ⟨5, 10, 5, 5⟩⟩, ⟨"c", 50, ⟨9, 20, 5, 5⟩⟩] := by
  refine ⟨by decide, ?_⟩
  exact c2_amended_scan_chain
    [⟨"a", 50, ⟨0, 0, 5, 5⟩⟩, ⟨"b", 50, ⟨5, 10, 5, 5⟩⟩, ⟨"c", 50, ⟨9, 20, 5, 5⟩⟩]
    _ (by decide)

/-! ## Lemmas about table extraction -/

/-- The table loop collects exactly the qualifying rows, in order, appended
to whatever rows the accumulator already holds. -/
theorem tableLoop_fst : ∀ (lines : List (List Token)) (rows : List (List String))
    (h : Option (List String)),
    (lines.foldl tableRowStep (rows, h)).1 =
      rows ++ (lines.filter qualifiesAsRow).map (fun l => l.map Token.text) := by
  intro lines
  induction lines with
  | nil => intro rows h; simp
  | cons l t ih =>
      intro rows h
      by_cases h3 : l.length ≥ 3
      · by_cases hh : isHeaderRow (l.map Token.text)
        · have hq : qualifiesAsRow l = false := by
            simp [qualifiesAsRow, hh]
          have hstep : (List.foldl tableRowStep (rows, h) (l :: t)).1
              = (List.foldl tableRowStep (rows, some (l.map Token.text)) t).1 := by
            simp [tableRowStep, h3, hh]
          rw [hstep, ih rows (some (l.map Token.text))]
          simp [List.filter_cons, hq]
        · have hq : qualifiesAsRow l = true := by
            simp [qualifiesAsRow, hh, h3]
          have hstep : (List.foldl tableRowStep (rows, h) (l :: t)).1
              = (List.foldl tableRowStep (rows ++ [l.map Token.text], h) t).1 := by
            simp [tableRowStep, h3, hh]
          rw [hstep, ih (rows ++ [l.map Token.text]) h]
          simp [List.filter_cons, hq]
      · have hq : qualifiesAsRow l = false := by
          simp only [qualifiesAsRow, Bool.and_eq_false_iff]
          left
          simpa using h3
        have hstep : (List.foldl tableRowStep (rows, h) (l :: t)).1
            = (List.foldl tableRowStep (rows, h) t).1 := by
          simp [tableRowStep, h3]
        rw [hstep, ih rows h]
        simp [List.filter_cons, hq]

/-- C5: for every list of lines, table extraction returns exactly the
qualifying rows — lines with at least 3 tokens whose space-joined text
contains no header keyword — as ordered lists of token texts, capped at 50
rows, and the empty table when fewer than 2 rows qualify. -/
theorem c5_table_structure (lines : List (List Token)) :
    extract_table_structure_advanced lines =
      (if 1 < ((lines.filter qualifiesAsRow).map (fun l => l.map Token.text)).length then
        ((lines.filter qualifiesAsRow).map (fun l => l.map Token.text)).take 50
       else []) ∧
    (extract_table_structure_advanced lines).length ≤ 50 := by
  have hmain : extract_table_structure_advanced lines =
      (if 1 < ((lines.filter qualifiesAsRow).map (fun l => l.map Token.text)).length then
        ((lines.filter qualifiesAsRow).map (fun l => l.map Token.text)).take 50
       else []) := by
    unfold extract_table_structure_advanced
    by_cases he : lines.isEmpty = true
    · have h0 : lines = [] := by simpa [List.isEmpty_iff] using he
      subst h0
      simp
    · rw [if_neg he]
      rw [tableLoop_fst lines [] none]
      simp
  refine ⟨hmain, ?_⟩
  rw [hmain]
  by_cases hq : 1 < ((lines.filter qualifiesAsRow).map (fun l => l.map Token.text)).length
  · rw [if_pos hq]
    exact List.length_take_le 50 _
  · rw [if_neg hq]
    simp

/-! ## Lemmas about key-value extraction -/

/-- The pattern loop with `break` finds a pattern exactly when some pattern
matches. -/
theorem firstMatchingPattern_isSome (key : String) :
    (firstMatchingPattern key).isSome = matchesAnyPattern key := by
  unfold firstMatchingPattern matchesAnyPattern
  rcases h : List.find? (fun p => searchPattern p key) key_patterns with _ | p
  · rw [List.find?_eq_none] at h
    simp only [Option.isSome_none]
    symm
    rw [List.any_eq_false]
    exact h
  · simp only [Option.isSome_some]
    symm
    rw [List.any_eq_true]
    have hsat := List.find?_some h
    exact ⟨p, List.mem_of_find?_eq_some h, hsat⟩

/-- Lookup on a cons cell whose key hits. -/
theorem lookup_cons_eq (k a b : String) (t : KVDict) (h : (k == a) = true) :
    List.lookup k ((a, b) :: t) = some b := by
  simp [List.lookup, h]

/-- Lookup on a cons cell whose key misses. -/
theorem lookup_cons_ne (k a b : String) (t : KVDict) (h : (k == a) = false) :
    List.lookup k ((a, b) :: t) = List.lookup k t := by
  simp [List.lookup, h]

/-- Replacing the bindings of key `k` leaves lookups of other keys
unchanged. -/
theorem lookup_map_ne : ∀ (m : KVDict) (k v k' : String), k' ≠ k →
    List.lookup k' (m.map (fun p => bif p.1 == k then (k, v) else p)) = List.lookup k' m := by
  intro m k v k' h
  have h1 : (k' == k) = false := by simp [h]
  induction m with
  | nil => simp
  | cons p t ih =>
      rcases p with ⟨a, b⟩
      cases hp : a == k
      · simp only [List.map_cons, hp, cond_false]
        cases hk : k' == a
        · rw [lookup_cons_ne _ _ _ _ hk, lookup_cons_ne _ _ _ _ hk]
          exact ih
        · rw [lookup_cons_eq _ _ _ _ hk, lookup_cons_eq _ _ _ _ hk]
      · have hpk : a = k := by simpa using hp
        have h2 : (k' == a) = false := by rw [hpk]; exact h1
        simp only [List.map_cons, hp, cond_true]
        rw [lookup_cons_ne _ _ _ _ h1, lookup_cons_ne _ _ _ _ h2]
        exact ih

/-- When some binding of key `k` exists, replacing the bindings of `k` by
`(k, v)` makes `v` the looked-up value. -/
theorem lookup_map_self : ∀ (m : KVDict) (k v : String),
    m.any (fun p => p.1 == k) = true →
    List.lookup k (m.map (fun p => bif p.1 == k then (k, v) else p)) = some v := by
  intro m k v
  induction m with
  | nil => intro h; simp at h
  | cons p t ih =>
      intro h
      rcases p with ⟨a, b⟩
      cases hp : a == k
      · have ht : t.any (fun p => p.1 == k) = true := by
          simp only [List.any_cons, hp, Bool.false_or] at h
          exact h
        have hne : a ≠ k := by simpa using hp
        have hk : (k == a) = false := by
          rw [beq_eq_false_iff_ne]
          exact Ne.symm hne
        simp only [List.map_cons, hp, cond_false]
        rw [lookup_cons_ne _ _ _ _ hk]
        exact ih ht
      · simp only [List.map_cons, hp, cond_true]
        exact lookup_cons_eq _ _ _ _ (by simp)

/-- A key absent from every binding looks up to `none`. -/
theorem lookup_none_of_any_false : ∀ (m : KVDict) (k : String),
    m.any (fun p => p.1 == k) = false →
    List.lookup k m = none := by
  intro m k
  induction m with
  | nil => intro _; simp
  | cons p t ih =>
      intro h
      rcases p with ⟨a, b⟩
      simp only [List.any_cons, Bool.or_eq_false_iff] at h
      have hne : a ≠ k := by simpa using h.1
      have hk : (k == a) = false := by
        rw [beq_eq_false_iff_ne]
        exact Ne.symm hne
      rw [lookup_cons_ne _ _ _ _ hk]
      exact ih h.2

/-- Characterisation of Python dict assignment: `d[k] = v` makes `v` the
value of `k` and changes no other key. -/
theorem lookup_dictSet (m : KVDict) (k v k' : String) :
    List.lookup k' (dictSet m k v) = if k' = k then some v else List.lookup k' m := by
  unfold dictSet
  cases hany : m.any (fun p => p.1 == k)
  · rw [if_neg (by simp [hany])]
    rw [List.lookup_append]
    by_cases hk : k' = k
    · subst hk
      rw [lookup_none_of_any_false m k' hany]
      rw [if_pos rfl, lookup_cons_eq _ _ _ _ (by simp)]
      rfl
    · rw [if_neg hk]
      have hb : (k' == k) = false := by simp [hk]
      rw [lookup_cons_ne _ _ _ _ hb]
      simp
  · rw [if_pos (by simp [hany])]
    by_cases hk : k' = k
    · subst hk
      rw [if_pos rfl]
      exact lookup_map_self m k' v hany
    · rw [if_neg hk]
      exact lookup_map_ne m k v k' hk

/-- C6: for every line with at least 2 tokens whose space-joined text
contains a colon, key-value extraction splits the text on the first colon
into (key, value) with the key lowercased and trimmed, records the pair iff
the key matches one of the twelve patterns or the key and value lengths are
reasonable (2 < len(key) < 50 and 0 < len(value) < 200), and a recorded
pair overwrites an existing binding of the same key. -/
theorem c6_colon_key_value (m : KVDict) (line : List Token)
    (h2 : 2 ≤ line.length) (hc : (joinedText line).toList.contains ':' = true) :
    kvLineStep m line =
      (if (matchesAnyPattern (colonKey line)
          || ((colonKey line).length > 2 && (colonKey line).length < 50
              && (colonValue line).length > 0 && (colonValue line).length < 200)) then
        dictSet m (colonKey line) (colonValue line)
       else m) ∧
    List.lookup (colonKey line) (dictSet m (colonKey line) (colonValue line))
      = some (colonValue line) := by
  constructor
  · rw [kvLineStep]
    rw [if_neg (by omega : ¬ line.length < 2)]
    dsimp only
    rw [if_pos hc]
    rcases hfm : firstMatchingPattern (pyLower (pyStrip (splitFirstColon (joinedText line)).1))
      with _ | pat
    · have hma : matchesAnyPattern (colonKey line) = false := by
        have hs := firstMatchingPattern_isSome (colonKey line)
        simp only [colonKey] at hs
        rw [hfm] at hs
        exact hs.symm
      simp only [colonKey, colonValue] at hma ⊢
      rw [hma]
      simp only [Bool.false_or]
    · have hma : matchesAnyPattern (colonKey line) = true := by
        have hs := firstMatchingPattern_isSome (colonKey line)
        simp only [colonKey] at hs
        rw [hfm] at hs
        exact hs.symm
      simp only [colonKey, colonValue] at hma ⊢
      rw [hma]
      simp only [Bool.true_or, if_true]
  · rw [lookup_dictSet]
    rw [if_pos rfl]

/-- C6 witness: a concrete "Invoice No: ABC-1" line recorded over an
existing binding of the same key, which the new value overwrites. -/
theorem c6_colon_key_value_witness :
    kvLineStep [("invoice no", "OLD")]
        [⟨"Invoice", 90, ⟨0, 0, 60, 10⟩⟩, ⟨"No:", 90, ⟨65, 0, 30, 10⟩⟩,
          ⟨"ABC-1", 90, ⟨100, 0, 50, 10⟩⟩]
      = [("invoice no", "ABC-1")] ∧
    List.lookup "invoice no" [("invoice no", "ABC-1")] = some "ABC-1" := by
  constructor
  · rw [(c6_colon_key_value [("invoice no", "OLD")]
      [⟨"Invoice", 90, ⟨0, 0, 60, 10⟩⟩, ⟨"No:", 90, ⟨65, 0, 30, 10⟩⟩,
        ⟨"ABC-1", 90, ⟨100, 0, 50, 10⟩⟩] (by decide) (by decide)).1]
    decide
  · decide

/-- The adjacent-pair loop equals a fold of the declarative step over the
line's adjacent pairs; recording is decided by pattern match plus gap below
100, with no lower bound on the gap. -/
theorem adjacentPairsLoop_eq_fold : ∀ (line : List Token) (m : KVDict),
    adjacentPairsLoop m line =
      (line.zip line.tail).foldl (fun acc ab => adjacentRecord acc ab.1 ab.2) m := by
  intro line
  induction line with
  | nil => intro m; rfl
  | cons a t ih =>
      intro m
      cases t with
      | nil => rfl
      | cons b rest =>
          rw [adjacentPairsLoop]
          dsimp only
          have hstep :
              (match firstMatchingPattern (pyLower a.text) with
                | some _ =>
                    if b.bbox.left - (a.bbox.left + a.bbox.width) < 100 then
                      dictSet m (pyLower a.text) b.text
                    else m
                | none => m) = adjacentRecord m a b := by
            rcases hfm : firstMatchingPattern (pyLower a.text) with _ | pat
            · have hma : matchesAnyPattern (pyLower a.text) = false := by
                have hs := firstMatchingPattern_isSome (pyLower a.text)
                rw [hfm] at hs
                exact hs.symm
              rw [adjacentRecord, hma]
              simp
            · have hma : matchesAnyPattern (pyLower a.text) = true := by
                have hs := firstMatchingPattern_isSome (pyLower a.text)
                rw [hfm] at hs
                exact hs.symm
              rw [adjacentRecord, hma]
              by_cases hd : b.bbox.left - (a.bbox.left + a.bbox.width) < 100
              · rw [if_pos hd]
                simp [hd]
              · rw [if_neg hd]
                simp [hd]
          rw [hstep]
          rw [ih (adjacentRecord m a b)]
          rfl

/-- C10: in the colon-free adjacent-pair path, processing a line folds the
declarative step over the line's adjacent pairs: a pair is recorded exactly
when the lowercased key text matches some pattern and the gap
`next.left - (key.left + key.width)` is strictly below 100 — with no lower
bound, so overlapping or out-of-order boxes qualify. -/
theorem c10_adjacent_pairs (m : KVDict) (line : List Token)
    (h2 : 2 ≤ line.length)
    (hnc : (joinedText line).toList.contains ':' = false) :
    kvLineStep m line =
      (line.zip line.tail).foldl (fun acc ab => adjacentRecord acc ab.1 ab.2) m := by
  rw [kvLineStep]
  rw [if_neg (by omega : ¬ line.length < 2)]
  dsimp only
  rw [if_neg (by rw [hnc]; exact Bool.false_ne_true)]
  exact adjacentPairsLoop_eq_fold line m

/-- C10 witness: a key token whose box overlaps the value token (negative
gap) still records the pair. -/
theorem c10_adjacent_pairs_witness :
    kvLineStep [] [⟨"Qty", 90, ⟨50, 0, 40, 10⟩⟩, ⟨"5", 90, ⟨30, 0, 10, 10⟩⟩]
      = [("qty", "5")] ∧
    ((⟨"5", 90, ⟨30, 0, 10, 10⟩⟩ : Token).bbox.left
      - ((⟨"Qty", 90, ⟨50, 0, 40, 10⟩⟩ : Token).bbox.left
          + (⟨"Qty", 90, ⟨50, 0, 40, 10⟩⟩ : Token).bbox.width)) = -60 := by
  constructor
  · rw [c10_adjacent_pairs [] [⟨"Qty", 90, ⟨50, 0, 40, 10⟩⟩, ⟨"5", 90, ⟨30, 0, 10, 10⟩⟩]
      (by decide) (by decide)]
    decide
  · decide

/-! ## Lemmas about plain-text profile selection -/

/-- A Bool that is not true is false. -/
theorem bool_eq_false {b : Bool} (h : ¬ b = true) : b = false := by
  cases b
  · rfl
  · exact absurd rfl h

/-- A valid profile has strictly positive mean confidence. -/
theorem avgConf_pos (p : ProfileOutcome) (h : validProfile p = true) :
    fracLt ⟨0, 1⟩ (avgConf p) = true := by
  unfold validProfile at h
  rw [Bool.and_eq_true] at h
  obtain ⟨_, hne⟩ := h
  have hne2 : positiveConfs p ≠ [] := by simpa using hne
  have hpos : 0 < (positiveConfs p).sum := by
    apply List.sum_pos
    · intro x hx
      have := (List.mem_filter.1 hx).2
      simpa using this
    · exact hne2
  simp only [fracLt, avgConf, decide_eq_true_eq]
  simpa using hpos

/-- As long as every valid profile seen so far has mean strictly below the
target mean, the running maximum stays strictly below it. -/
theorem profileFold_lt (p : ProfileOutcome) : ∀ (pre : List ProfileOutcome) (s : String × Frac),
    (∀ q ∈ pre, validProfile q = true → fracLt (avgConf q) (avgConf p) = true) →
    fracLt s.2 (avgConf p) = true →
    fracLt (pre.foldl profileStep s).2 (avgConf p) = true := by
  intro pre
  induction pre with
  | nil => intro s _ hs; exact hs
  | cons q t ih =>
      intro s hall hs
      rw [List.foldl_cons]
      refine ih _ (fun r hr hv => hall r (List.mem_cons_of_mem q hr) hv) ?_
      unfold profileStep
      by_cases hok : q.ok = true
      · rw [if_pos hok]
        by_cases hemp : (positiveConfs q).isEmpty = true
        · rw [if_pos hemp]; exact hs
        · rw [if_neg hemp]
          by_cases himp : fracLt s.2 (avgConf q) = true
          · rw [if_pos himp]
            have hval : validProfile q = true := by
              unfold validProfile
              rw [hok, bool_eq_false hemp]
              rfl
            exact hall q (List.mem_cons_self q t) hval
          · rw [if_neg himp]; exact hs
      · rw [if_neg hok]; exact hs

/-- Once the running best reaches the target mean, later profiles whose
means do not strictly exceed it leave the state unchanged. -/
theorem profileFold_const (p : ProfileOutcome) : ∀ (post : List ProfileOutcome) (best : String),
    (∀ q ∈ post, validProfile q = true → fracLt (avgConf p) (avgConf q) = false) →
    post.foldl profileStep (best, avgConf p) = (best, avgConf p) := by
  intro post
  induction post with
  | nil => intro best _; rfl
  | cons q t ih =>
      intro best hall
      rw [List.foldl_cons]
      have hstep : profileStep (best, avgConf p) q = (best, avgConf p) := by
        unfold profileStep
        by_cases hok : q.ok = true
        · rw [if_pos hok]
          by_cases hemp : (positiveConfs q).isEmpty = true
          · rw [if_pos hemp]
          · rw [if_neg hemp]
            have hval : validProfile q = true := by
              unfold validProfile
              rw [hok, bool_eq_false hemp]
              rfl
            have hlt := hall q (List.mem_cons_self q t) hval
            rw [if_neg (by rw [hlt]; exact Bool.false_ne_true)]
        · rw [if_neg hok]
      rw [hstep]
      exact ih best (fun r hr hv => hall r (List.mem_cons_of_mem q hr) hv)

/-- The configuration loop yields the empty string or the rendered text of
one of the profiles. -/
theorem selectLoop_fst_cases : ∀ (ps : List ProfileOutcome) (s : String × Frac),
    (ps.foldl profileStep s).1 = s.1 ∨
      ∃ p ∈ ps, (ps.foldl profileStep s).1 = renderBestText p.texts := by
  intro ps
  induction ps with
  | nil => intro s; exact Or.inl rfl
  | cons q t ih =>
      intro s
      rw [List.foldl_cons]
      rcases ih (profileStep s q) with h1 | ⟨p, hp, h1⟩
      · have hcase : (profileStep s q).1 = s.1 ∨ (profileStep s q).1 = renderBestText q.texts := by
          unfold profileStep
          by_cases hok : q.ok = true
          · rw [if_pos hok]
            by_cases hemp : (positiveConfs q).isEmpty = true
            · rw [if_pos hemp]; exact Or.inl rfl
            · rw [if_neg hemp]
              by_cases himp : fracLt s.2 (avgConf q) = true
              · rw [if_pos himp]; exact Or.inr rfl
              · rw [if_neg himp]; exact Or.inl rfl
          · rw [if_neg hok]; exact Or.inl rfl
        rcases hcase with hc | hc
        · exact Or.inl (h1.trans hc)
        · exact Or.inr ⟨q, List.mem_cons_self q t, h1.trans hc⟩
      · exact Or.inr ⟨p, List.mem_cons_of_mem q hp, h1⟩

/-- When a profile is usable and strictly improves on the running maximum,
its rendered text and mean become the new state. -/
theorem profileStep_improve (s : String × Frac) (p : ProfileOutcome)
    (hok : p.ok = true) (hemp : (positiveConfs p).isEmpty = false)
    (hlt : fracLt s.2 (avgConf p) = true) :
    profileStep s p = (renderBestText p.texts, avgConf p) := by
  unfold profileStep
  rw [if_pos hok, if_neg (by rw [hemp]; exact Bool.false_ne_true), if_pos hlt]

/-- C1 counterexample: the first profile has the strictly highest mean (90)
but an all-blank text column, the second profile (mean 50) is the only one
with non-empty text; the claim predicts its text "hello" is returned, but
the code keeps the empty first result, falls back to basic OCR and returns
the fallback's text instead. -/
theorem c1_counterexample :
    renderBestText [""] = "" ∧
    renderBestText ["hello"] = "hello" ∧
    extract_plain_text_advanced
        [⟨true, [90], [""]⟩, ⟨true, [50], ["hello"]⟩] (BasicOutcome.ok "basic")
      ≠ "hello" := by decide

/-- C1 (amended): a profile's result becomes the new best exactly when its
mean confidence strictly exceeds the current best, with no test of text
emptiness; hence the recognizer returns the (stripped) rendered text of the
profile whose mean is strictly maximal among all profiles having at least
one token of positive confidence — ties to the earliest-tried profile —
provided that text does not strip to empty. -/
theorem c1_amended_strict_max (pre post : List ProfileOutcome) (p : ProfileOutcome)
    (fb : BasicOutcome)
    (hv : validProfile p = true)
    (hpre : ∀ q ∈ pre, validProfile q = true → fracLt (avgConf q) (avgConf p) = true)
    (hpost : ∀ q ∈ post, validProfile q = true → fracLt (avgConf p) (avgConf q) = false)
    (hne : pyStrip (renderBestText p.texts) ≠ "") :
    extract_plain_text_advanced (pre ++ p :: post) fb = pyStrip (renderBestText p.texts) := by
  have hok : p.ok = true := by
    unfold validProfile at hv
    rw [Bool.and_eq_true] at hv
    exact hv.1
  have hemp : (positiveConfs p).isEmpty = false := by
    unfold validProfile at hv
    rw [Bool.and_eq_true] at hv
    simpa using hv.2
  have hsel : selectLoop (pre ++ p :: post) = (renderBestText p.texts, avgConf p) := by
    unfold selectLoop
    rw [List.foldl_append, List.foldl_cons]
    have hs0 : fracLt (List.foldl profileStep ("", ⟨0, 1⟩) pre).2 (avgConf p) = true :=
      profileFold_lt p pre ("", ⟨0, 1⟩) hpre (avgConf_pos p hv)
    rw [profileStep_improve _ p hok hemp hs0]
    exact profileFold_const p post (renderBestText p.texts) hpost
  unfold extract_plain_text_advanced
  rw [hsel]
  unfold fallbackText
  have hbe : (pyStrip (renderBestText p.texts) == "") = false := by
    simpa using hne
  rw [if_neg (by rw [hbe]; exact Bool.false_ne_true)]

/-- C1 witness: the amended theorem applied to two valid profiles with
means 50 and 40; the first profile's text wins. -/
theorem c1_amended_witness :
    extract_plain_text_advanced
        [⟨true, [50], ["hello"]⟩, ⟨true, [40], ["bye"]⟩] BasicOutcome.raised
      = pyStrip (renderBestText ["hello"]) := by
  exact c1_amended_strict_max [] [⟨true, [40], ["bye"]⟩] ⟨true, [50], ["hello"]⟩
    BasicOutcome.raised (by decide) (by decide) (by decide) (by decide)

/-- C8: whenever no profile yields usable (non-blank) text, the fallback
pass decides the result: on timeout the returned plain text is exactly the
timeout sentinel, on failure exactly the failure sentinel; the fallback
budget constant is 30 seconds. -/
theorem c8_fallback_sentinels (ps : List ProfileOutcome)
    (h : ∀ p ∈ ps, pyStrip (renderBestText p.texts) = "") :
    extract_plain_text_advanced ps BasicOutcome.timedOut
        = "OCR processing timed out - unable to extract text" ∧
    extract_plain_text_advanced ps BasicOutcome.raised = "OCR processing failed" ∧
    basic_ocr_timeout_seconds = 30 := by
  have hb : pyStrip (selectLoop ps).1 = "" := by
    rcases selectLoop_fst_cases ps ("", ⟨0, 1⟩) with h1 | ⟨p, hp, h1⟩
    · unfold selectLoop
      rw [h1]
      rfl
    · unfold selectLoop
      rw [h1]
      exact h p hp
  refine ⟨?_, ?_, rfl⟩
  · unfold extract_plain_text_advanced fallbackText
    rw [if_pos (by rw [hb]; rfl)]
    show pyStrip "OCR processing timed out - unable to extract text"
      = "OCR processing timed out - unable to extract text"
    decide
  · unfold extract_plain_text_advanced fallbackText
    rw [if_pos (by rw [hb]; rfl)]
    show pyStrip "OCR processing failed" = "OCR processing failed"
    decide

/-- C8 witness: a single profile whose only token text is blank triggers
the fallback; both sentinel results follow from the theorem. -/
theorem c8_fallback_sentinels_witness :
    extract_plain_text_advanced [⟨true, [80], ["  "]⟩] BasicOutcome.timedOut
        = "OCR processing timed out - unable to extract text" ∧
    extract_plain_text_advanced [⟨true, [80], ["  "]⟩] BasicOutcome.raised
        = "OCR processing failed" := by
  have h := c8_fallback_sentinels [⟨true, [80], ["  "]⟩] (by decide)
  exact ⟨h.1, h.2.1⟩

/-! ## Lemmas about the cross-page key-value merge -/

/-- A key absent from a dict's keys looks up to `none`. -/
theorem lookup_none_of_key_not_mem : ∀ (m : KVDict) (k : String),
    k ∉ m.map Prod.fst → List.lookup k m = none := by
  intro m k
  induction m with
  | nil => intro _; rfl
  | cons p t ih =>
      intro h
      rcases p with ⟨a, b⟩
      simp only [List.map_cons, List.mem_cons, not_or] at h
      have hb : (k == a) = false := by simp [h.1]
      rw [lookup_cons_ne _ _ _ _ hb]
      exact ih h.2

/-- On a dict with pairwise-distinct keys, lookup in the reversed list
agrees with lookup. -/
theorem lookup_reverse_of_nodup : ∀ (m : KVDict) (k : String),
    (m.map Prod.fst).Nodup → List.lookup k m.reverse = List.lookup k m := by
  intro m k
  induction m with
  | nil => intro _; rfl
  | cons p t ih =>
      intro hnd
      rcases p with ⟨a, b⟩
      simp only [List.map_cons, List.nodup_cons] at hnd
      rw [List.reverse_cons, List.lookup_append]
      by_cases hk : k = a
      · subst hk
        have ht : List.lookup k t = none :=
          lookup_none_of_key_not_mem t k hnd.1
        have htr : List.lookup k t.reverse = none := by
          apply lookup_none_of_key_not_mem
          simpa using hnd.1
        rw [htr, lookup_cons_eq k k b [] (by simp), lookup_cons_eq k k b t (by simp)]
        rfl
      · have hb : (k == a) = false := by simp [hk]
        have h1 : List.lookup k [(a, b)] = none := by
          rw [lookup_cons_ne _ _ _ _ hb]
          rfl
        rw [h1, Option.or_none, lookup_cons_ne _ _ _ _ hb]
        exact ih hnd.2

/-- Characterisation of Python `m.update(q)`: the last binding of `k` in
`q` wins, else the binding in `m` survives. -/
theorem lookup_dict_update : ∀ (q m : KVDict) (k : String),
    List.lookup k (dict_update m q) = (List.lookup k q.reverse).or (List.lookup k m) := by
  intro q
  induction q with
  | nil =>
      intro m k
      simp [dict_update]
  | cons p t ih =>
      intro m k
      rcases p with ⟨a, b⟩
      unfold dict_update
      rw [List.foldl_cons]
      dsimp only
      have hupd : List.lookup k (List.foldl (fun acc kv => dictSet acc kv.1 kv.2) (dictSet m a b) t)
          = (List.lookup k t.reverse).or (List.lookup k (dictSet m a b)) := ih (dictSet m a b) k
      rw [hupd, List.reverse_cons, List.lookup_append, lookup_dictSet]
      cases htr : List.lookup k t.reverse
      · simp only [htr, Option.none_or]
        by_cases hk : k = a
        · subst hk
          rw [if_pos rfl, lookup_cons_eq _ _ _ _ (by simp)]
          rfl
        · rw [if_neg hk]
          have hb : (k == a) = false := by simp [hk]
          rw [lookup_cons_ne _ _ _ _ hb]
          rfl
      · simp [htr]

/-- C9: merging per-page key-value maps in increasing page order lets a
later page's value overwrite an earlier page's value for the same key: the
merged map binds a key to the value of the last page binding it. -/
theorem c9_later_page_overwrites (pages₁ pages₂ : List KVDict) (p : KVDict) (k v : String)
    (hnd : (p.map Prod.fst).Nodup)
    (hp : List.lookup k p = some v)
    (hpost : ∀ q ∈ pages₂, k ∉ q.map Prod.fst) :
    List.lookup k (merge_kv_pages (pages₁ ++ p :: pages₂)) = some v := by
  unfold merge_kv_pages
  rw [List.foldl_append, List.foldl_cons]
  have hbase : List.lookup k (dict_update (List.foldl dict_update [] pages₁) p) = some v := by
    rw [lookup_dict_update, lookup_reverse_of_nodup p k hnd, hp]
    rfl
  have hkeep : ∀ (qs : List KVDict) (m : KVDict), (∀ q ∈ qs, k ∉ q.map Prod.fst) →
      List.lookup k m = some v → List.lookup k (qs.foldl dict_update m) = some v := by
    intro qs
    induction qs with
    | nil => intro m _ hm; exact hm
    | cons q t ihq =>
        intro m hall hm
        rw [List.foldl_cons]
        refine ihq _ (fun r hr => hall r (List.mem_cons_of_mem q hr)) ?_
        rw [lookup_dict_update]
        rw [lookup_none_of_key_not_mem q.reverse k
          (by simpa using hall q (List.mem_cons_self q t))]
        rw [hm]
        rfl
  exact hkeep pages₂ _ hpost hbase

/-- C9 witness: page 1 binds "invoice no" to "A1", page 2 to "A2"; the
merged document-level map binds it to "A2". -/
theorem c9_witness :
    List.lookup "invoice no"
        (merge_kv_pages [[("invoice no", "A1")], [("invoice no", "A2")]])
      = some "A2" := by
  exact c9_later_page_overwrites [[("invoice no", "A1")]] [] [("invoice no", "A2")]
    "invoice no" "A2" (by decide) (by decide) (by decide)

/-- C3 counterexample: a one-page document with a single token of
confidence 80 has document-level mean 80.00, yet no numeric value in the
final PDF result metadata equals it — the PDF metadata carries page counts
only, not the mean confidence. -/
theorem c3_counterexample :
    calculate_average_confidence [⟨"x", 80, ⟨0, 0, 1, 1⟩⟩] = ⟨8000, 100⟩ ∧
    (∀ q ∈ pdfMetadataValues (pdf_result_metadata 1), fracEqB q ⟨8000, 100⟩ = false) := by
  decide

/-- C3 (amended): for single-image runs the extraction metadata carries the
mean token confidence rounded to two decimals and the table count, but for
PDF runs the final result metadata carries only page counts (total_pages
and pages_processed equal to the number of pages) and no confidence or
table count — it is a function of the page count alone. -/
theorem c3_amended_metadata (sd : List Token) (n : Nat) (hne : sd ≠ []) :
    (extract_all_data_metadata sd).average_confidence
        = round2 ⟨(sd.map Token.confidence).sum, (sd.length : Int)⟩ ∧
    (extract_all_data_metadata sd).tables_found
        = (extract_table_structure_advanced (group_words_into_lines sd)).length ∧
    (pdf_result_metadata n).total_pages = n ∧
    (pdf_result_metadata n).processing_info.pages_processed = n := by
  refine ⟨?_, rfl, rfl, rfl⟩
  unfold extract_all_data_metadata
  dsimp only
  unfold calculate_average_confidence
  rw [if_neg (by rw [List.isEmpty_iff]; exact hne)]

/-- C3 witness: the amended theorem applied to a two-token page with
confidences 81 and 80 (mean 80.5) and a three-page PDF. -/
theorem c3_amended_witness :
    (extract_all_data_metadata
        [⟨"x", 81, ⟨0, 0, 1, 1⟩⟩, ⟨"y", 80, ⟨0, 20, 1, 1⟩⟩]).average_confidence
      = round2 ⟨161, 2⟩ ∧
    (pdf_result_metadata 3).total_pages = 3 := by
  have h := c3_amended_metadata
    [⟨"x", 81, ⟨0, 0, 1, 1⟩⟩, ⟨"y", 80, ⟨0, 20, 1, 1⟩⟩] 3 (by decide)
  refine ⟨?_, h.2.2.1⟩
  rw [h.1]
  decide

/-- C7 counterexample: an input raster of mode "L" is RGB-converted, then
the first enhancement step fails; the function returns the converted
raster, not the original unmodified input the claim requires. -/
theorem c7_counterexample :
    preprocess_image_advanced
        ⟨fun _ => some ⟨"RGB", 1⟩, fun _ => none, some, some, some, some, some, some, some,
          some, some⟩
        ⟨"L", 0⟩
      = ⟨"RGB", 1⟩ ∧ (⟨"RGB", 1⟩ : Raster) ≠ ⟨"L", 0⟩ := by
  decide

/-- C7 (amended): the preprocessor is total (it always returns a raster
without raising), and when any step of the chain fails the raster bound at
that moment is returned: the original input when the RGB normalisation
itself failed, else the RGB-normalised input; when the whole chain succeeds
its output is returned. -/
theorem c7_amended_failure_raster (ops : PreprocessOps) (img : Raster) :
    (rgbNormalize ops img = none → preprocess_image_advanced ops img = img) ∧
    (∀ img1, rgbNormalize ops img = some img1 →
      (preprocessChain ops img1 = none → preprocess_image_advanced ops img = img1) ∧
      (∀ out, preprocessChain ops img1 = some out → preprocess_image_advanced ops img = out)) := by
  constructor
  · intro h
    unfold preprocess_image_advanced
    rw [h]
  · intro img1 h
    constructor
    · intro hc
      unfold preprocess_image_advanced
      rw [h]
      dsimp only
      rw [hc]
    · intro out hc
      unfold preprocess_image_advanced
      rw [h]
      dsimp only
      rw [hc]

/-- C7 witness: the amended theorem applied to the concrete failing chain;
the RGB-converted raster is returned. -/
theorem c7_amended_witness :
    preprocess_image_advanced
        ⟨fun _ => some ⟨"RGB", 2⟩, fun _ => none, some, some, some, some, some, some, some,
          some, some⟩
        ⟨"L", 0⟩
      = ⟨"RGB", 2⟩ := by
  exact ((c7_amended_failure_raster
    ⟨fun _ => some ⟨"RGB", 2⟩, fun _ => none, some, some, some, some, some, some, some,
      some, some⟩
    ⟨"L", 0⟩).2 ⟨"RGB", 2⟩ (by decide)).1 (by decide)
